import Mathlib

/-! Shallow embedding of the task-management dashboard's core logic: the
filter/sort/validation utilities (`src/lib/utils.ts`), the mock API facade
(`src/lib/api.ts`), and the selection and notification logic of the UI store
(`src/lib/stores/uiStore.ts`).  JS strings are Lean `String`s (with the JS
string methods embedded over their character data, since the corresponding
core-library functions are not kernel-reducible), JS `Date` values are
natural-number millisecond timestamps, JS arrays are `List`s, and the stable
JS `Array.prototype.sort` is realised by the stable `List.insertionSort`. -/

namespace TMD

/-- `TaskStatus` from `types.ts`: `'pending' | 'in-progress' | 'completed'`. -/
inductive TaskStatus where
  | pending
  | inProgress
  | completed
deriving DecidableEq

/-- `Task` from `types.ts`.  The optional `description` is an `Option`;
`createdAt`/`updatedAt` are millisecond timestamps. -/
structure Task where
  id : String
  title : String
  description : Option String
  status : TaskStatus
  createdAt : Nat
  updatedAt : Nat
deriving DecidableEq

instance : Inhabited Task :=
  ⟨{ id := "", title := "", description := none, status := TaskStatus.pending,
     createdAt := 0, updatedAt := 0 }⟩

/-- JS `String.prototype.toLowerCase`, embedded over the character data. -/
def jsToLower (s : String) : String :=
  String.mk (s.data.map Char.toLower)

/-- JS `String.prototype.includes` over character lists: does `needle` occur
contiguously inside the second list? -/
def charsContain (needle : List Char) : List Char → Bool
  | [] => needle.isEmpty
  | c :: rest => needle.isPrefixOf (c :: rest) || charsContain needle rest

/-- JS `hay.includes(needle)`. -/
def jsIncludes (hay needle : String) : Bool :=
  charsContain needle.data hay.data

/-- JS `String.prototype.trim`, embedded over the character data: strip
whitespace from both ends. -/
def jsTrim (s : String) : String :=
  String.mk (((s.data.dropWhile Char.isWhitespace).reverse.dropWhile Char.isWhitespace).reverse)

/-- The `TaskStatus | 'all'` union used as the status filter. -/
inductive StatusFilter where
  | all
  | status (s : TaskStatus)
deriving DecidableEq

/-- JS `task.status === statusFilter`: a task's status (never the string
`'all'`) compared against the filter value. -/
def statusMatchesFilter (s : TaskStatus) : StatusFilter → Bool
  | StatusFilter.all => false
  | StatusFilter.status s2 => s == s2

/-- `filterTasks` from `utils.ts`. -/
def filterTasks (tasks : List Task) (statusFilter : StatusFilter)
    (searchQuery : String) : List Task :=
  tasks.filter fun task =>
    let matchesStatus := statusFilter == StatusFilter.all
      || statusMatchesFilter task.status statusFilter
    let matchesSearch := searchQuery == ""
      || jsIncludes (jsToLower task.title) (jsToLower searchQuery)
      || (match task.description with
          | some d => jsIncludes (jsToLower d) (jsToLower searchQuery)
          | none => false)
    matchesStatus && matchesSearch

/-- `SortField` from `types.ts`. -/
inductive SortField where
  | title
  | createdAt
  | updatedAt
  | status
deriving DecidableEq

/-- `SortDirection` from `types.ts`. -/
inductive SortDirection where
  | asc
  | desc
deriving DecidableEq

/-- The fixed `statusOrder` ranking used when sorting by status. -/
def statusOrder : TaskStatus → Nat
  | TaskStatus.pending => 0
  | TaskStatus.inProgress => 1
  | TaskStatus.completed => 2

/-- The tail of the `sortTasks` comparator:
`if (aValue < bValue) return direction === 'asc' ? -1 : 1;`
`if (aValue > bValue) return direction === 'asc' ? 1 : -1; return 0;`. -/
def compareVals {K : Type} [LinearOrder K] (aValue bValue : K)
    (direction : SortDirection) : Int :=
  if aValue < bValue then (if direction = SortDirection.asc then -1 else 1)
  else if bValue < aValue then (if direction = SortDirection.asc then 1 else -1)
  else 0

/-- The full `sortTasks` comparator, selecting the per-field key exactly as the
`switch (field)` does (the `default` branch of the switch is unreachable, the
four cases being exhaustive). -/
def taskCompare (field : SortField) (direction : SortDirection) (a b : Task) : Int :=
  match field with
  | SortField.title => compareVals (jsToLower a.title) (jsToLower b.title) direction
  | SortField.createdAt => compareVals a.createdAt b.createdAt direction
  | SortField.updatedAt => compareVals a.updatedAt b.updatedAt direction
  | SortField.status => compareVals (statusOrder a.status) (statusOrder b.status) direction

/-- `sortTasks` from `utils.ts`: a stable sort of a copy of the input by the
comparator.  JS `Array.prototype.sort` is stable, and an element `a` precedes
`b` exactly when the comparator is non-positive on the pair; `List.insertionSort`
with that relation realises the same stable-sort semantics. -/
def sortTasks (tasks : List Task) (field : SortField)
    (direction : SortDirection) : List Task :=
  List.insertionSort (fun a b => taskCompare field direction a b ≤ 0) tasks

/-- `validateTaskTitle` from `utils.ts` (`!title.trim()` is the empty-string
falsiness test). -/
def validateTaskTitle (title : String) : Option String :=
  if jsTrim title = "" then some "Title is required"
  else if (jsTrim title).length < 3 then some "Title must be at least 3 characters"
  else if (jsTrim title).length > 100 then some "Title must be less than 100 characters"
  else none

/-- `CreateTaskData` from `types.ts`. -/
structure CreateTaskData where
  title : String
  description : Option String
  status : TaskStatus
deriving DecidableEq

/-- `UpdateTaskData` from `types.ts`: every field optional, `some` exactly when
the field is present in the payload. -/
structure UpdateTaskData where
  title : Option String
  description : Option String
  status : Option TaskStatus
deriving DecidableEq

/-- The `{data, success, message}` shape of single-task responses (`null` data
is `none`). -/
structure TaskResponse where
  data : Option Task
  success : Bool
  message : String
deriving DecidableEq

/-- The `{data, success, message}` shape of task-list responses. -/
structure TasksResponse where
  data : List Task
  success : Bool
  message : String
deriving DecidableEq

/-- The `{success, message}` result of `deleteTask`. -/
structure DeleteResponse where
  success : Bool
  message : String
deriving DecidableEq

/-- The facade's module-level state: the `tasks` array together with the
current clock value read by `new Date()` during the operation. -/
structure ApiState where
  tasks : List Task
  now : Nat
deriving DecidableEq

/-- JS `Array.prototype.findIndex`, with the `-1` miss embedded as `none`. -/
def findIndex {α : Type} (p : α → Bool) : List α → Option Nat
  | [] => none
  | a :: l => if p a then some 0 else (findIndex p l).map (· + 1)

/-- The merge `{...tasks[taskIndex], ...updateData, updatedAt: new Date()}`:
payload fields override, `updatedAt` is refreshed, all other fields survive. -/
def mergeUpdate (task : Task) (u : UpdateTaskData) (now : Nat) : Task :=
  { id := task.id,
    title := u.title.getD task.title,
    description := u.description.or task.description,
    status := u.status.getD task.status,
    createdAt := task.createdAt,
    updatedAt := now }

/-- `TaskAPI.createTask` from `api.ts`.  The fresh id produced by
`generateId()` (clock digits plus randomness) is passed in explicitly, as the
embedding of that nondeterminism. -/
def createTask (st : ApiState) (taskData : CreateTaskData) (newId : String) :
    TaskResponse × ApiState :=
  let newTask : Task :=
    { id := newId,
      title := taskData.title,
      description := taskData.description,
      status := taskData.status,
      createdAt := st.now,
      updatedAt := st.now }
  ({ data := some newTask, success := true, message := "Task created successfully" },
   { st with tasks := newTask :: st.tasks })

/-- `TaskAPI.updateTask` from `api.ts`. -/
def updateTask (st : ApiState) (id : String) (updateData : UpdateTaskData) :
    TaskResponse × ApiState :=
  match findIndex (fun t => t.id == id) st.tasks with
  | none => ({ data := none, success := false, message := "Task not found" }, st)
  | some taskIndex =>
      let updatedTask := mergeUpdate (st.tasks.getD taskIndex default) updateData st.now
      ({ data := some updatedTask, success := true, message := "Task updated successfully" },
       { st with tasks := st.tasks.set taskIndex updatedTask })

/-- `TaskAPI.deleteTask` from `api.ts` (`splice(taskIndex, 1)` is `eraseIdx`). -/
def deleteTask (st : ApiState) (id : String) : DeleteResponse × ApiState :=
  match findIndex (fun t => t.id == id) st.tasks with
  | none => ({ success := false, message := "Task not found" }, st)
  | some taskIndex =>
      ({ success := true, message := "Task deleted successfully" },
       { st with tasks := st.tasks.eraseIdx taskIndex })

/-- One `{id, data}` entry of a bulk update. -/
structure BulkUpdateEntry where
  id : String
  data : UpdateTaskData
deriving DecidableEq

/-- The `for (const update of updates)` loop of `bulkUpdateTasks`, returning
the final task array and the `updatedTasks` accumulator in application
order. -/
def bulkGo (now : Nat) : List BulkUpdateEntry → List Task → List Task × List Task
  | [], cur => (cur, [])
  | u :: rest, cur =>
      match findIndex (fun t => t.id == u.id) cur with
      | none => bulkGo now rest cur
      | some taskIndex =>
          let updatedTask := mergeUpdate (cur.getD taskIndex default) u.data now
          let r := bulkGo now rest (cur.set taskIndex updatedTask)
          (r.1, updatedTask :: r.2)

/-- `TaskAPI.bulkUpdateTasks` from `api.ts`. -/
def bulkUpdateTasks (st : ApiState) (updates : List BulkUpdateEntry) :
    TasksResponse × ApiState :=
  let r := bulkGo st.now updates st.tasks
  ({ data := r.2,
     success := true,
     message := toString r.2.length ++ " tasks updated successfully" },
   { st with tasks := r.1 })

/-- The selection slice of the UI store: `isSelectMode` and `selectedTaskIds`
(the JS `Set` kept as its insertion-ordered elements). -/
structure SelectionState where
  isSelectMode : Bool
  selectedTaskIds : List String
deriving DecidableEq

/-- Truthiness of the `isSelectMode` store *object* (as opposed to its boolean
value): a JS object is always truthy. -/
def storeObjectTruthy : Bool := true

/-- `toggleSelectMode` from `uiStore.ts`.  The source guards the clear with
`if (!isSelectMode)` where `isSelectMode` is the writable store object itself,
not its current value; negating an always-truthy object yields `false`, so the
clear branch is dead code. -/
def toggleSelectMode (s : SelectionState) : SelectionState :=
  let s2 := { s with isSelectMode := !s.isSelectMode }
  if !storeObjectTruthy then { s2 with selectedTaskIds := [] } else s2

/-- Notification kinds from `uiStore.ts`. -/
inductive NotifType where
  | success
  | error
  | warning
  | info
deriving DecidableEq

/-- The argument of `addNotification` (`Omit<Notification, 'id'>`).  The
optional `action` callback is irrelevant to queue/timer behaviour and omitted;
`duration` is in milliseconds, `none` when unspecified. -/
structure NotifInput where
  type : NotifType
  title : String
  message : Option String
  duration : Option Int
deriving DecidableEq

/-- A queued notification, after id assignment and duration defaulting. -/
structure Notification where
  id : String
  type : NotifType
  title : String
  message : Option String
  duration : Int
deriving DecidableEq

/-- The notification subsystem's state: the queue plus the pending
`setTimeout` auto-removal timers (notification id, delay). -/
structure NotifState where
  notifications : List Notification
  timers : List (String × Int)
deriving DecidableEq

/-- `addNotification` from `uiStore.ts`: assigns the id, defaults the duration
to `5000` (`notification.duration ?? 5000`), appends to the queue, and
schedules an auto-removal timer exactly when
`newNotification.duration && newNotification.duration > 0`. -/
def addNotification (s : NotifState) (input : NotifInput) (id : String) : NotifState :=
  let d := input.duration.getD 5000
  let newNotification : Notification :=
    { id := id, type := input.type, title := input.title,
      message := input.message, duration := d }
  { notifications := s.notifications ++ [newNotification],
    timers := if d ≠ 0 ∧ 0 < d then (id, d) :: s.timers else s.timers }

/-- `removeNotification` from `uiStore.ts`: filters the queue by id.  Pending
timers are not cancelled; a timer firing after its notification is gone is a
no-op removal. -/
def removeNotification (s : NotifState) (id : String) : NotifState :=
  { notifications := s.notifications.filter (fun n => n.id != id),
    timers := s.timers }

/-- Events of the notification subsystem: `addNotification`, a scheduled
`setTimeout` callback firing, and explicit dismissal. -/
inductive NotifAction where
  | add (input : NotifInput) (id : String)
  | fire (id : String)
  | dismiss (id : String)

/-- Small-step semantics of the notification subsystem.  A timer can fire only
while it is pending; firing consumes it and runs its callback
`removeNotification(id)`. -/
inductive NotifStep : NotifAction → NotifState → NotifState → Prop where
  | add (s : NotifState) (input : NotifInput) (id : String) :
      NotifStep (NotifAction.add input id) s (addNotification s input id)
  | fire (ns : List Notification) (t1 t2 : List (String × Int)) (id : String) (d : Int) :
      NotifStep (NotifAction.fire id) ⟨ns, t1 ++ (id, d) :: t2⟩
        (removeNotification ⟨ns, t1 ++ t2⟩ id)
  | dismiss (s : NotifState) (id : String) :
      NotifStep (NotifAction.dismiss id) s (removeNotification s id)

/-- A run of the notification subsystem under a sequence of events. -/
inductive NotifRun : NotifState → List NotifAction → NotifState → Prop where
  | nil (s : NotifState) : NotifRun s [] s
  | cons {a : NotifAction} {s s2 s3 : NotifState} {acts : List NotifAction} :
      NotifStep a s s2 → NotifRun s2 acts s3 → NotifRun s (a :: acts) s3

/-- The queue holds a notification with the given id. -/
def hasNotif (s : NotifState) (id : String) : Prop :=
  ∃ n ∈ s.notifications, n.id = id

/-- No auto-removal timer for the given id is pending. -/
def noTimer (s : NotifState) (id : String) : Prop :=
  ∀ d, (id, d) ∉ s.timers

/-- A concrete sample task used by witnesses. -/
def sampleTask : Task :=
  { id := "t1", title := "Sample", description := none,
    status := TaskStatus.pending, createdAt := 0, updatedAt := 0 }

/-- The event adds or dismisses the given notification id. -/
def touchesId (x : String) : NotifAction → Prop
  | NotifAction.add _ i => i = x
  | NotifAction.fire _ => False
  | NotifAction.dismiss i => i = x



theorem findIndex_eq_none {α : Type} (p : α → Bool) (l : List α) :
    findIndex p l = none ↔ ∀ x ∈ l, p x = false := by
  induction l with
  | nil => simp [findIndex]
  | cons a l ih =>
      by_cases h : p a
      · simp [findIndex, h]
      · simp [findIndex, h, ih]

/-- C1: a task appears in the output of `filterTasks` iff it is in the input
and (the filter is `all` or its status equals the filter) and (the query is
empty, or a case-insensitive substring of the title, or a case-insensitive
substring of the description, a missing description never matching); and
filtering with status `all` and the empty query returns the input itself. -/
theorem filterTasks_spec (tasks : List Task) (f : StatusFilter) (q : String) (t : Task) :
    (t ∈ filterTasks tasks f q ↔
      (t ∈ tasks
        ∧ (f = StatusFilter.all ∨ f = StatusFilter.status t.status)
        ∧ (q = "" ∨ jsIncludes (jsToLower t.title) (jsToLower q) = true
            ∨ ∃ d, t.description = some d ∧ jsIncludes (jsToLower d) (jsToLower q) = true)))
    ∧ filterTasks tasks StatusFilter.all "" = tasks := by
  constructor
  · cases f with
    | all =>
        cases hd : t.description with
        | none =>
            simp [filterTasks, List.mem_filter, statusMatchesFilter, hd, beq_iff_eq]
        | some d =>
            simp [filterTasks, List.mem_filter, statusMatchesFilter, hd, beq_iff_eq]
            tauto
    | status s0 =>
        cases hd : t.description with
        | none =>
            simp only [filterTasks, List.mem_filter, statusMatchesFilter, hd,
              Bool.and_eq_true, Bool.or_eq_true, beq_iff_eq,
              StatusFilter.status.injEq, Option.some.injEq, reduceCtorEq]
            aesop
        | some d =>
            simp only [filterTasks, List.mem_filter, statusMatchesFilter, hd,
              Bool.and_eq_true, Bool.or_eq_true, beq_iff_eq,
              StatusFilter.status.injEq, Option.some.injEq, reduceCtorEq]
            aesop
  · exact List.filter_eq_self.mpr fun a _ => by simp

/-- C10: the output of `filterTasks` is an order-preserving subsequence of its
input — no new elements, no duplication, and surviving tasks keep their
relative order (`List.Sublist` states exactly this). -/
theorem filterTasks_sublist (tasks : List Task) (f : StatusFilter) (q : String) :
    List.Sublist (filterTasks tasks f q) tasks :=
  List.filter_sublist tasks

/-- C7 counterexample: the claim "passes for every title of 3-100 characters"
is false as stated: `"a  "` has 3 characters but a trimmed length of 1, and
`validateTaskTitle` rejects it. -/
theorem validateTaskTitle_len3_fails :
    ("a  ").length = 3
    ∧ validateTaskTitle "a  " = some "Title must be at least 3 characters" := by
  exact ⟨by decide, by decide⟩

/-- C7 (amended: lengths are measured on the trimmed title, as the code
trims before every check): empty or whitespace-only titles fail with
"Title is required"; trimmed length 1 or 2 fails with the minimum-length
message; trimmed length 3-100 passes; trimmed length 101 fails with the
maximum-length message. -/
theorem validateTaskTitle_amended (title : String) :
    (jsTrim title = "" → validateTaskTitle title = some "Title is required")
    ∧ ((jsTrim title).length = 1 ∨ (jsTrim title).length = 2 →
        validateTaskTitle title = some "Title must be at least 3 characters")
    ∧ (3 ≤ (jsTrim title).length → (jsTrim title).length ≤ 100 →
        validateTaskTitle title = none)
    ∧ ((jsTrim title).length = 101 →
        validateTaskTitle title = some "Title must be less than 100 characters") := by
  have hemp : ("" : String).length = 0 := rfl
  refine ⟨fun h => by simp [validateTaskTitle, h], ?_, ?_, ?_⟩
  · intro h
    have hne : jsTrim title ≠ "" := by
      intro e; rw [e] at h; omega
    have hlt : (jsTrim title).length < 3 := by omega
    simp [validateTaskTitle, hne, hlt]
  · intro h3 h100
    have hne : jsTrim title ≠ "" := by
      intro e; rw [e] at h3; omega
    have hnlt : ¬ (jsTrim title).length < 3 := by omega
    have hngt : ¬ (jsTrim title).length > 100 := by omega
    simp [validateTaskTitle, hne, hnlt, hngt]
  · intro h
    have hne : jsTrim title ≠ "" := by
      intro e; rw [e] at h; omega
    have hnlt : ¬ (jsTrim title).length < 3 := by omega
    have hgt : (jsTrim title).length > 100 := by omega
    simp [validateTaskTitle, hne, hnlt, hgt]

/-- Witness for C7's amended theorem at the concrete title `"abc"`. -/
theorem validateTaskTitle_amended_witness :
    validateTaskTitle "abc" = none :=
  (validateTaskTitle_amended "abc").2.2.1 (by decide) (by decide)

/-- C3 (code bug): `toggleSelectMode` never clears `selectedTaskIds` — the
guard `if (!isSelectMode)` negates the always-truthy store object instead of
its boolean value, so the clearing branch is dead; in particular turning
selection mode off (from `isSelectMode = true`) leaves the selected set
intact, contradicting the spec. -/
theorem toggleSelectMode_never_clears :
    (∀ s : SelectionState,
        (toggleSelectMode s).selectedTaskIds = s.selectedTaskIds
        ∧ (toggleSelectMode s).isSelectMode = !s.isSelectMode)
    ∧ (toggleSelectMode { isSelectMode := true, selectedTaskIds := ["task-1"] }).isSelectMode = false
    ∧ (toggleSelectMode { isSelectMode := true, selectedTaskIds := ["task-1"] }).selectedTaskIds
        = ["task-1"] :=
  ⟨fun _ => ⟨rfl, rfl⟩, rfl, rfl⟩

/-- C5: deleting an id absent from the collection returns `success = false`
with message "Task not found" and leaves the facade state exactly unchanged. -/
theorem deleteTask_not_found (st : ApiState) (id : String)
    (habs : ∀ t ∈ st.tasks, t.id ≠ id) :
    (deleteTask st id).1.success = false
    ∧ (deleteTask st id).1.message = "Task not found"
    ∧ (deleteTask st id).2 = st := by
  have hf : findIndex (fun t => t.id == id) st.tasks = none :=
    (findIndex_eq_none _ _).mpr fun t ht => by simpa using habs t ht
  simp [deleteTask, hf]

/-- Witness for C5 at a concrete one-task state and a missing id. -/
theorem deleteTask_not_found_witness :
    (deleteTask ⟨[sampleTask], 0⟩ "missing").1.success = false
    ∧ (deleteTask ⟨[sampleTask], 0⟩ "missing").1.message = "Task not found"
    ∧ (deleteTask ⟨[sampleTask], 0⟩ "missing").2 = ⟨[sampleTask], 0⟩ :=
  deleteTask_not_found ⟨[sampleTask], 0⟩ "missing" (by decide)




theorem findIndex_first {α : Type} (p : α → Bool) :
    ∀ (l : List α) (i : Nat) (hi : i < l.length), p (l[i]) = true →
      (∀ j (hj : j < l.length), p (l[j]) = true → i ≤ j) →
      findIndex p l = some i := by
  intro l
  induction l with
  | nil => intro i hi; simp at hi
  | cons a tl ih =>
      intro i hi hp hmin
      by_cases ha : p a
      · have h0 : i ≤ 0 := hmin 0 (Nat.succ_pos _) (by simpa using ha)
        have : i = 0 := Nat.le_zero.mp h0
        subst this
        simp [findIndex, ha]
      · cases i with
        | zero => exact absurd (by simpa using hp) ha
        | succ i2 =>
            have hi2 : i2 < tl.length := Nat.lt_of_succ_lt_succ hi
            have hp2 : p (tl[i2]) = true := by simpa using hp
            have hmin2 : ∀ j (hj : j < tl.length), p (tl[j]) = true → i2 ≤ j := by
              intro j hj hpj
              have := hmin (j + 1) (Nat.succ_lt_succ hj) (by simpa using hpj)
              omega
            simp [findIndex, ha, ih i2 hi2 hp2 hmin2]

theorem findIndex_some_spec {α : Type} [Inhabited α] (p : α → Bool) :
    ∀ (l : List α) (i : Nat), findIndex p l = some i →
      i < l.length ∧ p (l.getD i default) = true := by
  intro l
  induction l with
  | nil => intro i h; simp [findIndex] at h
  | cons a tl ih =>
      intro i h
      by_cases ha : p a
      · simp [findIndex, ha] at h
        subst h
        exact ⟨Nat.succ_pos _, by simpa using ha⟩
      · simp [findIndex, ha] at h
        obtain ⟨j, hj, rfl⟩ := h
        obtain ⟨h1, h2⟩ := ih j hj
        exact ⟨Nat.succ_lt_succ h1, by simpa using h2⟩

/-- C4: when the collection contains a task with the given id (at first
matching index `i`) and the clock has advanced past its `updatedAt`,
`updateTask` succeeds, keeps the collection length, overwrites exactly the
payload fields of that task, preserves its `id` and `createdAt`, sets
`updatedAt` to the current time (strictly later than before), and leaves
every other task unchanged. -/
theorem updateTask_spec (st : ApiState) (id : String) (u : UpdateTaskData) (i : Nat)
    (hi : i < st.tasks.length)
    (hid : (st.tasks[i]).id = id)
    (hfirst : ∀ j (hj : j < st.tasks.length), (st.tasks[j]).id = id → i ≤ j)
    (hclock : (st.tasks[i]).updatedAt < st.now) :
    (updateTask st id u).1.success = true
    ∧ (updateTask st id u).2.tasks.length = st.tasks.length
    ∧ (∀ hi2 : i < (updateTask st id u).2.tasks.length,
        ((updateTask st id u).2.tasks[i]).id = (st.tasks[i]).id
        ∧ ((updateTask st id u).2.tasks[i]).createdAt = (st.tasks[i]).createdAt
        ∧ ((updateTask st id u).2.tasks[i]).title = u.title.getD (st.tasks[i]).title
        ∧ ((updateTask st id u).2.tasks[i]).description = u.description.or (st.tasks[i]).description
        ∧ ((updateTask st id u).2.tasks[i]).status = u.status.getD (st.tasks[i]).status
        ∧ ((updateTask st id u).2.tasks[i]).updatedAt = st.now
        ∧ (st.tasks[i]).updatedAt < ((updateTask st id u).2.tasks[i]).updatedAt)
    ∧ (∀ j (hj : j < st.tasks.length) (hj2 : j < (updateTask st id u).2.tasks.length),
        j ≠ i → (updateTask st id u).2.tasks[j] = st.tasks[j]) := by
  have hfind : findIndex (fun t => t.id == id) st.tasks = some i :=
    findIndex_first _ st.tasks i hi (by simpa using hid)
      (fun j hj hpj => hfirst j hj (by simpa using hpj))
  have h2 : (updateTask st id u).2.tasks
      = st.tasks.set i (mergeUpdate (st.tasks[i]) u st.now) := by
    simp [updateTask, hfind, List.getElem?_eq_getElem hi]
  have h1 : (updateTask st id u).1.success = true := by
    simp [updateTask, hfind]
  refine ⟨h1, by simp [h2], ?_, ?_⟩
  · intro hi2
    simp only [h2, List.getElem_set_self]
    exact ⟨rfl, rfl, rfl, rfl, rfl, rfl, hclock⟩
  · intro j hj hj2 hne
    simp only [h2]
    exact List.getElem_set_ne (fun h => hne h.symm) (by simpa using hj)

/-- Witness for C4 at a concrete one-task state. -/
theorem updateTask_spec_witness :
    (updateTask ⟨[sampleTask], 10⟩ "t1"
        { title := some "New title", description := none,
          status := some TaskStatus.completed }).1.success = true :=
  (updateTask_spec ⟨[sampleTask], 10⟩ "t1"
    { title := some "New title", description := none, status := some TaskStatus.completed }
    0 (by decide) (by decide) (fun j hj hpj => Nat.zero_le j) (by decide)).1




theorem bulkGo_preserves (now : Nat) :
    ∀ (updates : List BulkUpdateEntry) (cur : List Task),
      (∀ t ∈ cur, t.createdAt ≤ t.updatedAt ∧ t.createdAt ≤ now) →
      ∀ t ∈ (bulkGo now updates cur).1, t.createdAt ≤ t.updatedAt ∧ t.createdAt ≤ now := by
  intro updates
  induction updates with
  | nil => intro cur h; simpa [bulkGo] using h
  | cons u rest ih =>
      intro cur h
      cases hf : findIndex (fun t => t.id == u.id) cur with
      | none => simpa [bulkGo, hf] using ih cur h
      | some i =>
          obtain ⟨hi, hp⟩ := findIndex_some_spec _ cur i hf
          have hcur : cur.getD i default = cur[i] := List.getD_eq_getElem cur default hi
          simp only [bulkGo, hf]
          apply ih
          intro t ht
          rcases List.mem_or_eq_of_mem_set ht with h1 | h1
          · exact h t h1
          · subst h1
            have hmem : cur[i] ∈ cur := List.getElem_mem hi
            have h3 := h _ hmem
            exact ⟨by simpa [mergeUpdate, List.getElem?_eq_getElem hi] using h3.2,
                   by simpa [mergeUpdate, List.getElem?_eq_getElem hi] using h3.2⟩

/-- C8: if every task satisfies `createdAt ≤ updatedAt` and the clock is
monotone (no task was created after the current `now`), then after
`createTask`, `updateTask` and `bulkUpdateTasks` every task in the collection
still satisfies `createdAt ≤ updatedAt` (`createTask` sets both to `now`;
every update refreshes `updatedAt` to `now`). -/
theorem timestamps_invariant (st : ApiState) (d : CreateTaskData) (newId : String)
    (id : String) (u : UpdateTaskData) (updates : List BulkUpdateEntry)
    (hinv : ∀ t ∈ st.tasks, t.createdAt ≤ t.updatedAt)
    (hclock : ∀ t ∈ st.tasks, t.createdAt ≤ st.now) :
    (∀ t ∈ (createTask st d newId).2.tasks, t.createdAt ≤ t.updatedAt)
    ∧ (∀ t ∈ (updateTask st id u).2.tasks, t.createdAt ≤ t.updatedAt)
    ∧ (∀ t ∈ (bulkUpdateTasks st updates).2.tasks, t.createdAt ≤ t.updatedAt) := by
  refine ⟨?_, ?_, ?_⟩
  · intro t ht
    simp only [createTask, List.mem_cons] at ht
    rcases ht with h1 | h1
    · subst h1; exact le_refl _
    · exact hinv t h1
  · intro t ht
    cases hf : findIndex (fun t2 => t2.id == id) st.tasks with
    | none =>
        simp only [updateTask, hf] at ht
        exact hinv t ht
    | some i =>
        obtain ⟨hi, hp⟩ := findIndex_some_spec _ st.tasks i hf
        have hcur : st.tasks.getD i default = st.tasks[i] := List.getD_eq_getElem _ default hi
        simp only [updateTask, hf] at ht
        rcases List.mem_or_eq_of_mem_set ht with h1 | h1
        · exact hinv t h1
        · subst h1
          have hmem : st.tasks[i] ∈ st.tasks := List.getElem_mem hi
          simpa [mergeUpdate, List.getElem?_eq_getElem hi] using hclock _ hmem
  · intro t ht
    have hall := bulkGo_preserves st.now updates st.tasks
      (fun t2 ht2 => ⟨hinv t2 ht2, hclock t2 ht2⟩)
    exact (hall t ht).1

/-- Witness for C8 at a concrete state and operations. -/
theorem timestamps_invariant_witness :
    sampleTask.createdAt ≤ sampleTask.updatedAt :=
  (timestamps_invariant ⟨[sampleTask], 7⟩
      { title := "T", description := none, status := TaskStatus.pending } "n1"
      "t1" { title := none, description := none, status := none } []
      (by decide) (by decide)).1 sampleTask (by decide)




theorem map_set_id {α β : Type} (f : α → β) :
    ∀ (l : List α) (i : Nat) (v : α) (hi : i < l.length), f v = f (l[i]) →
      (l.set i v).map f = l.map f := by
  intro l
  induction l with
  | nil => intro i v hi; simp at hi
  | cons a tl ih =>
      intro i v hi hfv
      cases i with
      | zero => simpa using hfv
      | succ i2 =>
          have hi2 : i2 < tl.length := Nat.lt_of_succ_lt_succ hi
          have := ih i2 v hi2 (by simpa using hfv)
          simpa using this

theorem bulkGo_spec (now : Nat) (ids0 : List String) :
    ∀ (updates : List BulkUpdateEntry) (cur : List Task),
      cur.map Task.id = ids0 →
      ((bulkGo now updates cur).1.map Task.id = ids0
        ∧ (bulkGo now updates cur).2.length
            = (updates.filter fun u2 => decide (u2.id ∈ ids0)).length
        ∧ ∀ t ∈ (bulkGo now updates cur).2,
            t.id ∈ ids0 ∧ t.updatedAt = now
              ∧ ∃ old u2, u2 ∈ updates ∧ u2.id = t.id ∧ t = mergeUpdate old u2.data now) := by
  intro updates
  induction updates with
  | nil =>
      intro cur hmap
      refine ⟨by simpa [bulkGo] using hmap, by simp [bulkGo], ?_⟩
      intro t ht
      simp [bulkGo] at ht
  | cons u rest ih =>
      intro cur hmap
      cases hf : findIndex (fun t => t.id == u.id) cur with
      | none =>
          have hnotin : u.id ∉ ids0 := by
            intro hin
            rw [← hmap] at hin
            obtain ⟨t2, ht2, hid2⟩ := List.mem_map.mp hin
            have := (findIndex_eq_none _ _).mp hf t2 ht2
            rw [hid2] at this
            simp at this
          obtain ⟨ih1, ih2, ih3⟩ := ih cur hmap
          refine ⟨by simpa [bulkGo, hf] using ih1, ?_, ?_⟩
          · simpa [bulkGo, hf, hnotin] using ih2
          · intro t ht
            have ht2 : t ∈ (bulkGo now rest cur).2 := by simpa [bulkGo, hf] using ht
            obtain ⟨a1, a2, old, u2, hu2, hid2, he⟩ := ih3 t ht2
            exact ⟨a1, a2, old, u2, List.mem_cons_of_mem _ hu2, hid2, he⟩
      | some i =>
          obtain ⟨hi, hp⟩ := findIndex_some_spec _ cur i hf
          have hcur : cur.getD i default = cur[i] := List.getD_eq_getElem cur default hi
          have hpid : (cur[i]).id = u.id := by
            rw [hcur] at hp
            simpa using hp
          have hin : u.id ∈ ids0 := by
            rw [← hmap]
            exact List.mem_map.mpr ⟨cur[i], List.getElem_mem hi, hpid⟩
          have hmid : (mergeUpdate (cur.getD i default) u.data now).id = u.id := by
            simp only [mergeUpdate]
            rw [hcur, hpid]
          have hmap2 : (cur.set i (mergeUpdate (cur.getD i default) u.data now)).map Task.id
              = ids0 := by
            rw [← hmap]
            refine map_set_id Task.id cur i _ hi ?_
            show (mergeUpdate (cur.getD i default) u.data now).id = (cur[i]).id
            rw [hmid, hpid]
          obtain ⟨ih1, ih2, ih3⟩ := ih _ hmap2
          refine ⟨by simpa [bulkGo, hf] using ih1, ?_, ?_⟩
          · simpa [bulkGo, hf, hin] using ih2
          · intro t ht
            have ht2 : t = mergeUpdate (cur.getD i default) u.data now
                ∨ t ∈ (bulkGo now rest (cur.set i (mergeUpdate (cur.getD i default) u.data now))).2 := by
              simpa [bulkGo, hf] using ht
            rcases ht2 with h1 | h1
            · subst h1
              exact ⟨by rw [hmid]; exact hin, rfl,
                cur.getD i default, u, List.mem_cons_self u rest, (hmid).symm, rfl⟩
            · obtain ⟨a1, a2, old, u2, hu2, hid2, he⟩ := ih3 t h1
              exact ⟨a1, a2, old, u2, List.mem_cons_of_mem _ hu2, hid2, he⟩

/-- C6: `bulkUpdateTasks` always returns `success = true` (even with zero
matches), its message reports the number of tasks actually updated, its
returned data has exactly one entry per update whose id existed in the
collection (unknown ids silently skipped), and every returned task carries an
id from the collection, a refreshed `updatedAt = now`, and is the merge of
some prior task state with its entry's payload. -/
theorem bulkUpdateTasks_spec (st : ApiState) (updates : List BulkUpdateEntry) :
    (bulkUpdateTasks st updates).1.success = true
    ∧ (bulkUpdateTasks st updates).1.message
        = toString (bulkUpdateTasks st updates).1.data.length ++ " tasks updated successfully"
    ∧ (bulkUpdateTasks st updates).1.data.length
        = (updates.filter fun u2 => decide (u2.id ∈ st.tasks.map Task.id)).length
    ∧ ∀ t ∈ (bulkUpdateTasks st updates).1.data,
        t.id ∈ st.tasks.map Task.id ∧ t.updatedAt = st.now
          ∧ ∃ old u2, u2 ∈ updates ∧ u2.id = t.id ∧ t = mergeUpdate old u2.data st.now := by
  obtain ⟨h1, h2, h3⟩ := bulkGo_spec st.now (st.tasks.map Task.id) updates st.tasks rfl
  exact ⟨rfl, rfl, h2, h3⟩

/-- Witness for C6: one matching and one bogus id against a one-task state. -/
theorem bulkUpdateTasks_spec_witness :
    (bulkUpdateTasks ⟨[sampleTask], 9⟩
        [⟨"t1", ⟨none, none, some TaskStatus.completed⟩⟩,
         ⟨"bogus", ⟨none, none, none⟩⟩]).1.success = true
    ∧ (bulkUpdateTasks ⟨[sampleTask], 9⟩
        [⟨"t1", ⟨none, none, some TaskStatus.completed⟩⟩,
         ⟨"bogus", ⟨none, none, none⟩⟩]).1.data.length = 1 :=
  ⟨(bulkUpdateTasks_spec ⟨[sampleTask], 9⟩
      [⟨"t1", ⟨none, none, some TaskStatus.completed⟩⟩,
       ⟨"bogus", ⟨none, none, none⟩⟩]).1,
   by
    rw [(bulkUpdateTasks_spec ⟨[sampleTask], 9⟩
      [⟨"t1", ⟨none, none, some TaskStatus.completed⟩⟩,
       ⟨"bogus", ⟨none, none, none⟩⟩]).2.2.1]
    decide⟩




theorem compareVals_asc_le_zero {K : Type} [LinearOrder K] (x y : K) :
    compareVals x y SortDirection.asc ≤ 0 ↔ x ≤ y := by
  unfold compareVals
  rcases lt_trichotomy x y with h | h | h
  · simp [h, le_of_lt h]
  · simp [h, lt_irrefl]
  · simp [h, not_lt.mpr (le_of_lt h), not_le.mpr h, lt_irrefl]

theorem compareVals_desc_le_zero {K : Type} [LinearOrder K] (x y : K) :
    compareVals x y SortDirection.desc ≤ 0 ↔ y ≤ x := by
  unfold compareVals
  rcases lt_trichotomy x y with h | h | h
  · simp [h, not_le.mpr h]
  · simp [h, lt_irrefl]
  · simp [h, not_lt.mpr (le_of_lt h), le_of_lt h, lt_irrefl]

theorem compareVals_eq_zero {K : Type} [LinearOrder K] (x y : K) (d : SortDirection) :
    compareVals x y d = 0 ↔ x = y := by
  unfold compareVals
  rcases lt_trichotomy x y with h | h | h
  · cases d <;> simp [h, ne_of_lt h]
  · simp [h, lt_irrefl]
  · cases d <;> simp [h, not_lt.mpr (le_of_lt h), ne_of_gt h, lt_irrefl]

theorem insertionSort_key_desc_eq_reverse {K : Type} [LinearOrder K]
    (key : Task → K) (l : List Task)
    (hnd : l.Pairwise fun a b => key a ≠ key b) :
    List.insertionSort (fun a b => compareVals (key a) (key b) SortDirection.desc ≤ 0) l
      = (List.insertionSort (fun a b => compareVals (key a) (key b) SortDirection.asc ≤ 0) l).reverse := by
  haveI hTotD : IsTotal Task (fun a b => compareVals (key a) (key b) SortDirection.desc ≤ 0) :=
    ⟨fun a b => by
      rw [compareVals_desc_le_zero, compareVals_desc_le_zero]
      exact (le_total (key b) (key a))⟩
  haveI hTransD : IsTrans Task (fun a b => compareVals (key a) (key b) SortDirection.desc ≤ 0) :=
    ⟨fun a b c hab hbc => by
      rw [compareVals_desc_le_zero] at hab hbc ⊢
      exact le_trans hbc hab⟩
  haveI hTotA : IsTotal Task (fun a b => compareVals (key a) (key b) SortDirection.asc ≤ 0) :=
    ⟨fun a b => by
      rw [compareVals_asc_le_zero, compareVals_asc_le_zero]
      exact le_total (key a) (key b)⟩
  haveI hTransA : IsTrans Task (fun a b => compareVals (key a) (key b) SortDirection.asc ≤ 0) :=
    ⟨fun a b c hab hbc => by
      rw [compareVals_asc_le_zero] at hab hbc ⊢
      exact le_trans hab hbc⟩
  haveI : IsAntisymm Task (fun a b : Task => key b < key a) :=
    ⟨fun a b h1 h2 => absurd h2 (lt_asymm h1)⟩
  have hpD := List.perm_insertionSort
    (fun a b => compareVals (key a) (key b) SortDirection.desc ≤ 0) l
  have hpA := List.perm_insertionSort
    (fun a b => compareVals (key a) (key b) SortDirection.asc ≤ 0) l
  have hsD := List.sorted_insertionSort
    (fun a b => compareVals (key a) (key b) SortDirection.desc ≤ 0) l
  have hsA := List.sorted_insertionSort
    (fun a b => compareVals (key a) (key b) SortDirection.asc ≤ 0) l
  have hneD := hnd.perm hpD.symm (fun h => h.symm)
  have hneA := hnd.perm hpA.symm (fun h => h.symm)
  have hstrictD : (List.insertionSort
      (fun a b => compareVals (key a) (key b) SortDirection.desc ≤ 0) l).Pairwise
        (fun a b : Task => key b < key a) := by
    refine (List.Pairwise.and hsD hneD).imp ?_
    rintro a b ⟨h1, h2⟩
    exact lt_of_le_of_ne ((compareVals_desc_le_zero _ _).mp h1) (Ne.symm h2)
  have hstrictA : ((List.insertionSort
      (fun a b => compareVals (key a) (key b) SortDirection.asc ≤ 0) l).reverse).Pairwise
        (fun a b : Task => key b < key a) := by
    rw [List.pairwise_reverse]
    refine (List.Pairwise.and hsA hneA).imp ?_
    rintro a b ⟨h1, h2⟩
    exact lt_of_le_of_ne ((compareVals_asc_le_zero _ _).mp h1) h2
  have hperm : (List.insertionSort
      (fun a b => compareVals (key a) (key b) SortDirection.desc ≤ 0) l).Perm
        ((List.insertionSort
          (fun a b => compareVals (key a) (key b) SortDirection.asc ≤ 0) l).reverse) :=
    hpD.trans ((List.reverse_perm _).trans hpA).symm
  exact List.eq_of_perm_of_sorted hperm hstrictD hstrictA

/-- C2 (amended: provided no two tasks compare equal on the selected field):
sorting descending yields exactly the reverse of sorting ascending. -/
theorem sortTasks_desc_eq_reverse_asc (tasks : List Task) (field : SortField)
    (hnoties : tasks.Pairwise fun a b => taskCompare field SortDirection.asc a b ≠ 0) :
    sortTasks tasks field SortDirection.desc
      = (sortTasks tasks field SortDirection.asc).reverse := by
  cases field with
  | title =>
      exact insertionSort_key_desc_eq_reverse (fun t => jsToLower t.title) tasks
        (hnoties.imp fun h he => h ((compareVals_eq_zero _ _ _).mpr he))
  | createdAt =>
      exact insertionSort_key_desc_eq_reverse (fun t => t.createdAt) tasks
        (hnoties.imp fun h he => h ((compareVals_eq_zero _ _ _).mpr he))
  | updatedAt =>
      exact insertionSort_key_desc_eq_reverse (fun t => t.updatedAt) tasks
        (hnoties.imp fun h he => h ((compareVals_eq_zero _ _ _).mpr he))
  | status =>
      exact insertionSort_key_desc_eq_reverse (fun t => statusOrder t.status) tasks
        (hnoties.imp fun h he => h ((compareVals_eq_zero _ _ _).mpr he))

/-- Witness for C2's amended theorem on two tasks with distinct `createdAt`. -/
theorem sortTasks_desc_eq_reverse_asc_witness :
    sortTasks [sampleTask,
        { id := "t2", title := "Other", description := none,
          status := TaskStatus.pending, createdAt := 5, updatedAt := 6 }]
      SortField.createdAt SortDirection.desc
      = (sortTasks [sampleTask,
          { id := "t2", title := "Other", description := none,
            status := TaskStatus.pending, createdAt := 5, updatedAt := 6 }]
        SortField.createdAt SortDirection.asc).reverse :=
  sortTasks_desc_eq_reverse_asc _ SortField.createdAt (by
    refine List.pairwise_cons.mpr ⟨?_, List.pairwise_singleton _ _⟩
    intro t ht h
    rw [List.mem_singleton] at ht
    subst ht
    revert h
    decide)

/-- C2 counterexample: with two distinct tasks tying on the selected field
(equal `createdAt`), the stable sort leaves both orders equal to the input, so
the descending output is not the reverse of the ascending output. -/
theorem sortTasks_tie_counterexample :
    sortTasks [sampleTask,
        { id := "t2", title := "Other", description := none,
          status := TaskStatus.pending, createdAt := 0, updatedAt := 6 }]
      SortField.createdAt SortDirection.desc
      ≠ (sortTasks [sampleTask,
          { id := "t2", title := "Other", description := none,
            status := TaskStatus.pending, createdAt := 0, updatedAt := 6 }]
        SortField.createdAt SortDirection.asc).reverse := by
  decide




theorem notif_step_preserves (x : String) {a : NotifAction} {s s2 : NotifState}
    (hstep : NotifStep a s s2) (hna : ¬ touchesId x a)
    (hno : noTimer s x) (hhas : hasNotif s x) :
    hasNotif s2 x ∧ noTimer s2 x := by
  cases hstep with
  | add s input id =>
      have hna2 : id ≠ x := fun he => hna (by simpa [touchesId] using he)
      obtain ⟨n, hn, hnid⟩ := hhas
      refine ⟨⟨n, List.mem_append_left _ hn, hnid⟩, ?_⟩
      intro d hd
      by_cases hc : (input.duration.getD 5000 ≠ 0 ∧ 0 < input.duration.getD 5000)
      · have ht : (addNotification s input id).timers
            = (id, input.duration.getD 5000) :: s.timers := by
          simp [addNotification, hc]
        rw [ht] at hd
        rcases List.mem_cons.mp hd with h1 | h1
        · exact hna2 ((Prod.mk.injEq _ _ _ _).mp h1).1.symm
        · exact hno d h1
      · have ht : (addNotification s input id).timers = s.timers := by
          simp only [addNotification]
          rw [if_neg hc]
        rw [ht] at hd
        exact hno d hd
  | fire ns t1 t2 id d =>
      have hidx : id ≠ x := by
        intro he
        subst he
        exact hno d (by simp)
      obtain ⟨n, hn, hnid⟩ := hhas
      refine ⟨⟨n, ?_, hnid⟩, ?_⟩
      · refine List.mem_filter.mpr ⟨hn, ?_⟩
        rw [bne_iff_ne, hnid]
        exact fun he => hidx he.symm
      · intro d2 hd2
        refine hno d2 ?_
        rcases List.mem_append.mp hd2 with h1 | h1
        · exact List.mem_append_left _ h1
        · exact List.mem_append_right _ (List.mem_cons_of_mem _ h1)
  | dismiss s id =>
      have hna2 : id ≠ x := fun he => hna (by simpa [touchesId] using he)
      obtain ⟨n, hn, hnid⟩ := hhas
      refine ⟨⟨n, ?_, hnid⟩, ?_⟩
      · refine List.mem_filter.mpr ⟨hn, ?_⟩
        rw [bne_iff_ne, hnid]
        exact fun he => hna2 he.symm
      · intro d hd
        exact hno d hd

theorem notif_run_preserves (x : String) :
    ∀ {s : NotifState} {acts : List NotifAction} {s2 : NotifState},
      NotifRun s acts s2 → (∀ a ∈ acts, ¬ touchesId x a) →
      noTimer s x → hasNotif s x → hasNotif s2 x ∧ noTimer s2 x := by
  intro s acts s2 hrun
  induction hrun with
  | nil => intro _ hno hhas; exact ⟨hhas, hno⟩
  | cons hstep hrest ih =>
      intro hacts hno hhas
      obtain ⟨h1, h2⟩ := notif_step_preserves x hstep
        (hacts _ (List.mem_cons_self _ _)) hno hhas
      exact ih (fun a ha => hacts a (List.mem_cons_of_mem _ ha)) h2 h1

/-- C9: a notification added with duration exactly 0 schedules no auto-removal
timer, and (starting from no pending timer for its id) survives every event
sequence that neither dismisses it nor re-adds its id — only explicit
dismissal can remove it; one added with no duration gets the default 5000ms
and a scheduled timer, and when a notification's timer fires the notification
is removed from the queue. -/
theorem addNotification_duration_spec (s : NotifState) (input : NotifInput) (id : String) :
    (input.duration = some 0 → (addNotification s input id).timers = s.timers)
    ∧ (input.duration = none →
        (addNotification s input id).notifications
          = s.notifications
            ++ [{ id := id, type := input.type, title := input.title,
                  message := input.message, duration := 5000 }]
        ∧ ((id, (5000 : Int)) ∈ (addNotification s input id).timers))
    ∧ (input.duration = some 0 → noTimer s id →
        ∀ acts s2, NotifRun (addNotification s input id) acts s2 →
          (∀ a ∈ acts, ¬ touchesId id a) → hasNotif s2 id ∧ noTimer s2 id)
    ∧ (∀ s3 s4, NotifStep (NotifAction.fire id) s3 s4 → ¬ hasNotif s4 id) := by
  refine ⟨?_, ?_, ?_, ?_⟩
  · intro h
    simp [addNotification, h]
  · intro h
    refine ⟨by simp [addNotification, h], ?_⟩
    have ht : (addNotification s input id).timers = (id, (5000 : Int)) :: s.timers := by
      simp [addNotification, h]
    rw [ht]
    exact List.mem_cons_self _ _
  · intro h hno acts s2 hrun hacts
    have ht : (addNotification s input id).timers = s.timers := by
      simp [addNotification, h]
    refine notif_run_preserves id hrun hacts ?_ ?_
    · intro d hd
      rw [ht] at hd
      exact hno d hd
    · exact ⟨_, List.mem_append_right _ (List.mem_cons_self _ _), rfl⟩
  · intro s3 s4 hstep
    cases hstep with
    | fire ns t1 t2 id2 d =>
        rintro ⟨n, hn, hnid⟩
        have hmem := List.mem_filter.mp hn
        exact absurd hnid (by simpa [bne_iff_ne] using hmem.2)

/-- Witness for C9: adding a duration-0 notification to the empty state
schedules no timer. -/
theorem addNotification_duration_spec_witness :
    (addNotification ⟨[], []⟩
        { type := NotifType.info, title := "Hello", message := none, duration := some 0 }
        "n1").timers = [] :=
  (addNotification_duration_spec ⟨[], []⟩
      { type := NotifType.info, title := "Hello", message := none, duration := some 0 }
      "n1").1 rfl


end TMD
